import Mathlib

/-!
Verification development for the `example-mock-server` repository.

The repository's logical core is `example/services.py`:

    BASE_URL = getattr(settings, 'BASE_URL')
    USERS_URL = urljoin(BASE_URL, 'users')

    def get_users():
        response = requests.get(USERS_URL)
        if response.ok:
            return response
        else:
            return None

plus two BDD step modules.  The mock-path step patches the module global
`USERS_URL` for the scope of one request:

    with patch.dict('example.services.__dict__', {'USERS_URL': mock_users_url}):
        world.response = get_users()

This file embeds those pieces shallowly:

* Python strings are embedded as `List Char`; the functions `urljoin`,
  `urlsplit`, `urlparse`, `urlunsplit`, `urlunparse`, `_splitnetloc` and
  `_splitparams` are translated line by line from the Python 2 standard
  library module `urlparse` (the module the source imports).  The only
  deliberate omissions, none of which any claim touches, are: the parse
  cache (pure memoisation), the `ValueError` raised for netlocs with
  mismatched IPv6 brackets (the well-formedness predicates used by the
  theorems exclude `[` and `]` from netlocs), and the unbounded rewrite
  loop for `..` segments, which is given `segments.length` steps of fuel
  (each rewrite removes two list elements, so the fuel is never exhausted).
* The HTTP transport (the `requests` library, an external collaborator) is
  an oracle `Transport : String -> Except RequestException Response`; the
  absence of any try/except in `get_users` is embedded as monadic
  propagation of the `.error` case.  `Response.ok` follows the documented
  contract of `requests.Response.ok` (true exactly when the status code is
  below 400).  The instrumented `get_users` additionally returns the list
  of request URLs it issued, so that claims about "exactly one outbound
  call" are statable.
* `mock.patch.dict` (external collaborator) is embedded per its documented
  contract: the patched dictionary is replaced for the duration of the
  body and the saved original is restored on scope exit whether the body
  returns or raises.
* The JSON decoder behind `response.json()` (external collaborator) is a
  small fuel-based recursive-descent parser; string escapes are handled
  lexically (a backslash consumes the next character) which is enough to
  classify every body appearing in the claims.
-/

/-! ## Python string primitives, embedded over `List Char` -/

/-- Python `s.find(c)` for a single character: index of the first
occurrence, `none` standing for Python's `-1`. -/
def strFind (c : Char) : List Char → Option Nat
  | [] => none
  | x :: xs => if x = c then some 0 else (strFind c xs).map (· + 1)

/-- Python `s.rfind(c)`: index of the last occurrence. -/
def strRFind (c : Char) : List Char → Option Nat
  | [] => none
  | x :: xs =>
    match strRFind c xs with
    | some j => some (j + 1)
    | none => if x = c then some 0 else none

/-- Python `s.split(c, 1)` when `c` occurs in `s`: the parts before and
after the first occurrence (callers guard on membership, as the Python
source does). -/
def splitFirst (c : Char) : List Char → List Char × List Char
  | [] => ([], [])
  | x :: xs =>
    if x = c then ([], xs)
    else
      let r := splitFirst c xs
      (x :: r.1, r.2)

/-- Python `s.split(c)` for a one-character separator. -/
def splitAll (c : Char) : List Char → List (List Char)
  | [] => [[]]
  | x :: xs =>
    match splitAll c xs with
    | [] => [[]]
    | h :: t => if x = c then [] :: h :: t else (x :: h) :: t

/-- Python `c.join(parts)` for a one-character separator. -/
def joinSep (c : Char) : List (List Char) → List Char
  | [] => []
  | [x] => x
  | x :: xs => x ++ c :: joinSep c xs

/-- Python 2 `str.lower` on one ASCII character. -/
def pyLowerChar (c : Char) : Char :=
  if 'A' ≤ c ∧ c ≤ 'Z' then Char.ofNat (c.toNat + 32) else c

/-- Python 2 `str.lower` (ASCII). -/
def pyLower (s : List Char) : List Char := s.map pyLowerChar

/-! ## The `urlparse` module (Python 2.7), embedded -/

/-- `urlparse.uses_relative`. -/
def uses_relative : List (List Char) :=
  (["ftp", "http", "gopher", "nntp", "imap", "wais", "file", "https",
    "shttp", "mms", "prospero", "rtsp", "rtspu", "", "sftp", "svn",
    "svn+ssh"] : List String).map String.data

/-- `urlparse.uses_netloc`. -/
def uses_netloc : List (List Char) :=
  (["ftp", "http", "gopher", "nntp", "telnet", "imap", "wais", "file",
    "mms", "https", "shttp", "snews", "prospero", "rtsp", "rtspu",
    "rsync", "", "svn", "svn+ssh", "sftp", "nfs", "git",
    "git+ssh"] : List String).map String.data

/-- `urlparse.uses_params`. -/
def uses_params : List (List Char) :=
  (["ftp", "hdl", "prospero", "http", "imap", "https", "shttp", "rtsp",
    "rtspu", "sip", "sips", "mms", "", "sftp", "tel"] : List String).map
    String.data

/-- `urlparse.scheme_chars`. -/
def scheme_chars : List Char :=
  ("abcdefghijklmnopqrstuvwxyzABCDEFGHIJKLMNOPQRSTUVWXYZ0123456789+-.").data

/-- The character class `'0123456789'` used by `urlsplit`'s port check. -/
def digitChars : List Char := ("0123456789").data

/-- Result of `urlsplit`: `(scheme, netloc, path, query, fragment)`; the
`path` field is the variable `url` of the Python source. -/
structure SplitResult where
  scheme : List Char
  netloc : List Char
  path : List Char
  query : List Char
  fragment : List Char
deriving DecidableEq

/-- `urlparse._splitnetloc(url, 2)`, applied after the leading `//` has
been checked: the netloc runs to the first of `/`, `?`, `#`. -/
def splitnetloc (s : List Char) : List Char × List Char :=
  (s.takeWhile (fun c => !(c = '/' || c = '?' || c = '#')),
   s.dropWhile (fun c => !(c = '/' || c = '?' || c = '#')))

/-- The common tail of `urlsplit`: netloc, fragment and query extraction
(`allow_fragments` is `True` everywhere in this repository). -/
def splitRest (scheme : List Char) (url0 : List Char) : SplitResult :=
  let p1 := if url0.take 2 = ['/', '/'] then splitnetloc (url0.drop 2)
    else ([], url0)
  let p2 := if ('#') ∈ p1.2 then splitFirst '#' p1.2 else (p1.2, [])
  let p3 := if ('?') ∈ p2.1 then splitFirst '?' p2.1 else (p2.1, [])
  ⟨scheme, p1.1, p3.1, p3.2, p2.2⟩

/-- `urlparse.urlsplit(url, scheme)` (Python 2.7; the parse cache, a pure
memoisation, is not modelled). -/
def urlsplit (url : List Char) (defaultScheme : List Char) : SplitResult :=
  match strFind ':' url with
  | some i =>
    if 0 < i then
      let front := url.take i
      let rest := url.drop (i + 1)
      if front = ("http").data then splitRest (pyLower front) rest
      else if front.all (fun c => decide (c ∈ scheme_chars)) then
        -- make sure "url" is not actually a port number
        (if rest = [] ∨ rest.any (fun c => !(decide (c ∈ digitChars))) then
          splitRest (pyLower front) rest
         else splitRest defaultScheme url)
      else splitRest defaultScheme url
    else splitRest defaultScheme url
  | none => splitRest defaultScheme url

/-- Result of `urlparse`. -/
structure ParseResult where
  scheme : List Char
  netloc : List Char
  path : List Char
  params : List Char
  query : List Char
  fragment : List Char
deriving DecidableEq

/-- `urlparse._splitparams`. -/
def splitparams (url : List Char) : List Char × List Char :=
  if ('/') ∈ url then
    let j := (strRFind '/' url).getD 0
    match strFind ';' (url.drop j) with
    | none => (url, [])
    | some k => (url.take (j + k), url.drop (j + k + 1))
  else
    match strFind ';' url with
    | none => (url, [])
    | some k => (url.take k, url.drop (k + 1))

/-- `urlparse.urlparse(url, scheme)`. -/
def urlparse (url : List Char) (defaultScheme : List Char) : ParseResult :=
  let s := urlsplit url defaultScheme
  if s.scheme ∈ uses_params ∧ (';') ∈ s.path then
    let (p, params) := splitparams s.path
    ⟨s.scheme, s.netloc, p, params, s.query, s.fragment⟩
  else ⟨s.scheme, s.netloc, s.path, [], s.query, s.fragment⟩

/-- `urlparse.urlunsplit`. -/
def urlunsplit (scheme netloc url query fragment : List Char) : List Char :=
  let url :=
    if netloc ≠ [] ∨ (url ≠ [] ∧ url.take 2 = ['/', '/']) then
      ('/' :: '/' :: netloc) ++
        (if url ≠ [] ∧ url.take 1 ≠ ['/'] then '/' :: url else url)
    else url
  let url := if scheme ≠ [] then scheme ++ ':' :: url else url
  let url := if query ≠ [] then url ++ '?' :: query else url
  if fragment ≠ [] then url ++ '#' :: fragment else url

/-- `urlparse.urlunparse`. -/
def urlunparse (scheme netloc url params query fragment : List Char) :
    List Char :=
  urlunsplit scheme netloc
    (if params = [] then url else url ++ ';' :: params) query fragment

/-- `urljoin`'s pre-step `if segments[-1] == '.': segments[-1] = ''`. -/
def fixLastDot (segs : List (List Char)) : List (List Char) :=
  if segs.getLast? = some (".").data then segs.dropLast ++ [([] : List Char)]
  else segs

/-- `urljoin`'s loop `while '.' in segments: segments.remove('.')`;
repeated first-occurrence removal of every `'.'` is the same list as a
filter. -/
def removeDots (segs : List (List Char)) : List (List Char) :=
  segs.filter (fun s => decide (s ≠ (".").data))

/-- The scan of `urljoin`'s inner `while i < n` loop: the first index
`i ≥ 1`, with at least one element after it, holding `'..'` whose
predecessor is neither `''` nor `'..'`. -/
def findDotDotFrom : List (List Char) → Nat → Option Nat
  | a :: b :: c :: rest, i =>
    if b = ("..").data ∧ a ≠ [] ∧ a ≠ ("..").data then some i
    else findDotDotFrom (b :: c :: rest) (i + 1)
  | _, _ => none

/-- Entry point of the scan (Python starts at `i = 1`). -/
def findDotDot (segs : List (List Char)) : Option Nat := findDotDotFrom segs 1

/-- `urljoin`'s outer `while 1` loop: delete `segments[i-1:i+1]` and
rescan until no reducible `'..'` pair remains.  Each step removes two
elements, so fuel `segs.length` (supplied by `mergePaths`) never runs
out. -/
def removeDotDotsAux : Nat → List (List Char) → List (List Char)
  | 0, segs => segs
  | fuel + 1, segs =>
    match findDotDot segs with
    | none => segs
    | some i => removeDotDotsAux fuel (segs.take (i - 1) ++ segs.drop (i + 1))

/-- The path-merging block of `urljoin`, from
`segments = bpath.split('/')[:-1] + path.split('/')` to
`'/'.join(segments)`. -/
def mergePaths (bpath rpath : List Char) : List Char :=
  let segments := (splitAll '/' bpath).dropLast ++ splitAll '/' rpath
  let segments := fixLastDot segments
  let segments := removeDots segments
  let segments := removeDotDotsAux segments.length segments
  let segments :=
    if segments = [("..").data] then [([] : List Char)]
    else if 2 ≤ segments.length ∧ segments.getLast? = some ("..").data then
      segments.dropLast.dropLast ++ [([] : List Char)]
    else segments
  joinSep '/' segments

/-- `urlparse.urljoin(base, url)` (Python 2.7). -/
def urljoin (base url : List Char) : List Char :=
  if base = [] then url
  else if url = [] then base
  else
    let b := urlparse base []
    let r := urlparse url b.scheme
    if r.scheme ≠ b.scheme ∨ r.scheme ∉ uses_relative then url
    else if r.scheme ∈ uses_netloc ∧ r.netloc ≠ [] then
      urlunparse r.scheme r.netloc r.path r.params r.query r.fragment
    else
      let netloc := if r.scheme ∈ uses_netloc then b.netloc else r.netloc
      if r.path = [] ∧ r.params = [] then
        urlunparse r.scheme netloc b.path b.params
          (if r.query = [] then b.query else r.query) r.fragment
      else
        urlunparse r.scheme netloc (mergePaths b.path r.path) r.params
          r.query r.fragment

/-- `urljoin` lifted to Lean `String`s (the type the service model uses). -/
def urljoinS (base url : String) : String := ⟨urljoin base.data url.data⟩

/-! ## JSON documents and decoding (the external decoder behind
`response.json()`) -/

/-- A decoded JSON document. -/
inductive Json where
  | null : Json
  | jbool : Bool → Json
  | jnum : String → Json
  | jstr : String → Json
  | jarr : List Json → Json
  | jobj : List (String × Json) → Json

/-- JSON insignificant whitespace. -/
def skipWs (s : List Char) : List Char :=
  s.dropWhile (fun c => c = ' ' || c = '\t' || c = '\n' || c = '\r')

/-- Characters that may continue a JSON number lexeme. -/
def numChar (c : Char) : Bool := decide (c ∈ ("0123456789+-.eE").data)

/-- Body of a JSON string after the opening quote; a backslash consumes
the following character (a lexical simplification of the escape table
that classifies every body the claims mention exactly). -/
def parseStringBody : Nat → List Char → List Char → Option (List Char × List Char)
  | 0, _, _ => none
  | _ + 1, [], _ => none
  | fuel + 1, c :: r, acc =>
    if c = '"' then some (acc.reverse, r)
    else if c = '\\' then
      match r with
      | [] => none
      | e :: r2 => parseStringBody fuel r2 (e :: acc)
    else parseStringBody fuel r (c :: acc)

mutual

/-- Recursive-descent JSON value parser (fuel-based). -/
def parseValue : Nat → List Char → Option (Json × List Char)
  | 0, _ => none
  | fuel + 1, s =>
    match skipWs s with
    | 'n' :: 'u' :: 'l' :: 'l' :: r => some (.null, r)
    | 't' :: 'r' :: 'u' :: 'e' :: r => some (.jbool true, r)
    | 'f' :: 'a' :: 'l' :: 's' :: 'e' :: r => some (.jbool false, r)
    | '"' :: r =>
      match parseStringBody fuel r [] with
      | some (cs, rest) => some (.jstr ⟨cs⟩, rest)
      | none => none
    | '[' :: r =>
      (match skipWs r with
       | ']' :: rest => some (.jarr [], rest)
       | _ =>
         match parseItems fuel r with
         | some (xs, rest) => some (.jarr xs, rest)
         | none => none)
    | '{' :: r =>
      (match skipWs r with
       | '}' :: rest => some (.jobj [], rest)
       | _ =>
         match parseMembers fuel r with
         | some (kvs, rest) => some (.jobj kvs, rest)
         | none => none)
    | c :: r =>
      if c = '-' ∨ c ∈ digitChars then
        let lex := (c :: r).takeWhile numChar
        some (.jnum ⟨lex⟩, (c :: r).dropWhile numChar)
      else none
    | [] => none

/-- One-or-more comma-separated array items followed by `]`. -/
def parseItems : Nat → List Char → Option (List Json × List Char)
  | 0, _ => none
  | fuel + 1, s =>
    match parseValue fuel s with
    | none => none
    | some (v, rest) =>
      match skipWs rest with
      | ',' :: rest2 =>
        (match parseItems fuel rest2 with
         | some (vs, rest3) => some (v :: vs, rest3)
         | none => none)
      | ']' :: rest2 => some ([v], rest2)
      | _ => none

/-- One-or-more comma-separated object members followed by `}`. -/
def parseMembers : Nat → List Char → Option (List (String × Json) × List Char)
  | 0, _ => none
  | fuel + 1, s =>
    match skipWs s with
    | '"' :: r =>
      (match parseStringBody fuel r [] with
       | none => none
       | some (k, rest) =>
         match skipWs rest with
         | ':' :: rest2 =>
           (match parseValue fuel rest2 with
            | none => none
            | some (v, rest3) =>
              match skipWs rest3 with
              | ',' :: rest4 =>
                (match parseMembers fuel rest4 with
                 | some (kvs, rest5) => some ((⟨k⟩, v) :: kvs, rest5)
                 | none => none)
              | '}' :: rest4 => some ([(⟨k⟩, v)], rest4)
              | _ => none)
         | _ => none)
    | _ => none

end

/-- The external JSON decode of a response body: a whole-input parse. -/
def json_decode (body : String) : Option Json :=
  match parseValue (2 * body.length + 4) body.data with
  | some (v, rest) => if skipWs rest = [] then some v else none
  | none => none

/-- Does a body decode to a (JSON) list? -/
def jsonIsList (j : Option Json) : Bool :=
  match j with
  | some (Json.jarr _) => true
  | _ => false

/-! ## The service under verification: `example/services.py` and the
mock-path step of `example/features/mock_server_steps.py` -/

/-- An HTTP response as delivered by the transport: status code, header
mapping and raw body. -/
structure Response where
  status_code : Nat
  headers : List (String × String)
  body : String
deriving DecidableEq

/-- `requests.Response.ok`: true exactly when the status code is below
400 (the documented contract of the external `requests` collaborator). -/
def Response.ok (r : Response) : Bool := decide (r.status_code < 400)

/-- `response.json()`. -/
def Response.json (r : Response) : Option Json := json_decode r.body

/-- Transport-level failures of `requests.get` (`requests` raises these;
`get_users` contains no try/except). -/
inductive RequestException where
  | connectionError : RequestException
  | timeout : RequestException
  | dnsFailure : RequestException
deriving DecidableEq

/-- The HTTP transport as an oracle: one call, one outcome. -/
def Transport : Type := String → Except RequestException Response

/-- The literal path segment `'users'` of `services.py`. -/
def usersSegment : String := "users"

/-- `USERS_URL = urljoin(BASE_URL, 'users')`, computed once at module
load from the externally configured `BASE_URL`. -/
def USERS_URL (base : String) : String := urljoinS base usersSegment

/-- `get_users`, instrumented: the first component is the returned value
(`response`, `None`, or a propagating transport exception), the second
the list of request URLs issued to the transport in order. -/
def get_users (t : Transport) (users_url : String) :
    Except RequestException (Option Response) × List String :=
  match t users_url with
  | .error e => (.error e, [users_url])
  | .ok response =>
    (if response.ok then .ok (some response) else .ok none, [users_url])

/-- The module-level state of `example.services` visible to callers and
to the test patcher: the `USERS_URL` global. -/
structure ServicesState where
  usersUrl : String
deriving DecidableEq

/-- `get_users` as a state transformer over the module state it reads:
the source contains no assignment to any global, so the state passes
through unchanged. -/
def get_users_st (t : Transport) (st : ServicesState) :
    Except RequestException (Option Response) × ServicesState :=
  ((get_users t st.usersUrl).1, st)

/-- The `lettuce` `world` object as used by the steps: `world.response`
is unset until a send step assigns it. -/
structure World where
  response : Option (Option Response)
deriving DecidableEq

/-- `mock.patch.dict` as used on `example.services.__dict__` (external
collaborator, embedded per its documented contract): the override is
installed, the body runs, and on exit — whether the body returned or
raised — the saved original dictionary is restored. -/
def patch_dict {ε α : Type} (newUrl : String)
    (body : ServicesState → Except ε α × ServicesState)
    (st : ServicesState) : Except ε α × ServicesState :=
  let original := st
  let patched : ServicesState := { st with usersUrl := newUrl }
  let run := body patched
  (run.1, original)

/-- The mock-path step `send_request`: build the mock URL from the
harness port, patch `USERS_URL` for the scope of the call, invoke
`get_users`, store `world.response` on success; a transport exception
propagates out of the step (leaving `world` unassigned). -/
def send_request (t : Transport) (port : Nat) (st : ServicesState)
    (w : World) : Except RequestException Unit × ServicesState × World :=
  let mock_users_url : String := "http://localhost:" ++ toString port ++ "/users"
  let run := patch_dict mock_users_url
    (fun s => ((get_users t s.usersUrl).1, s)) st
  match run.1 with
  | .ok r => (.ok (), run.2, { response := some r })
  | .error e => (.error e, run.2, w)

/-! ## Spec-side vocabulary for the URL-builder claims -/

/-- Query/fragment assembly used by `renderUrl` (absent when empty). -/
def qOpt (q : List Char) : List Char := if q = [] then [] else '?' :: q

/-- See `qOpt`. -/
def fOpt (f : List Char) : List Char := if f = [] then [] else '#' :: f

/-- An absolute URL `scheme://netloc<path>[?query][#fragment]` assembled
from its components; used to quantify over well-formed absolute base
URLs. -/
def renderUrl (scheme netloc path query fragment : List Char) : List Char :=
  scheme ++ ':' :: '/' :: '/' :: (netloc ++ (path ++ qOpt query ++ fOpt fragment))

/-- The spec's words for the URL builder: the relative segment replaces
the last path component of the base path (everything after the last
slash); an empty base path yields `/segment`. -/
def replaceLastSegment (path seg : List Char) : List Char :=
  match strRFind '/' path with
  | some j => path.take (j + 1) ++ seg
  | none => '/' :: seg

/-- A scheme the claims quantify over: named by `uses_relative` (the
schemes for which `urljoin` resolves relative references at all) and
nonempty. -/
def GoodScheme (s : List Char) : Prop := s ∈ uses_relative ∧ s ≠ []

/-- A host component: nonempty, free of the delimiters that end a netloc
and of the IPv6 brackets whose mismatch check is not modelled. -/
def GoodNetloc (n : List Char) : Prop :=
  n ≠ [] ∧ ∀ c ∈ n, c ≠ '/' ∧ c ≠ '?' ∧ c ≠ '#' ∧ c ≠ '[' ∧ c ≠ ']'

/-- A base path: empty or slash-led, free of query/fragment/params
delimiters, and containing no `.`/`..` dot segments. -/
def GoodPath (p : List Char) : Prop :=
  (p = [] ∨ p.take 1 = ['/']) ∧ (∀ c ∈ p, c ≠ '?' ∧ c ≠ '#' ∧ c ≠ ';') ∧
    ∀ s ∈ splitAll '/' p, s ≠ (".").data ∧ s ≠ ("..").data

/-- An ordinary relative path segment: nonempty, delimiter-free, and not
a dot segment. -/
def GoodSeg (s : List Char) : Prop :=
  s ≠ [] ∧ (∀ c ∈ s, c ≠ ':' ∧ c ≠ '/' ∧ c ≠ '?' ∧ c ≠ '#' ∧ c ≠ ';') ∧
    s ≠ (".").data ∧ s ≠ ("..").data

/-! ## Concrete fixtures used by witnesses and counterexamples -/

/-- The header the harness serves and the steps assert on. -/
def CONTENT_TYPE_JSON : String × String :=
  ("Content-Type", "application/json; charset=utf-8")

/-- The canned mock-harness response: `200`, JSON content type, body `[]`. -/
def mockResponse : Response :=
  { status_code := 200, headers := [CONTENT_TYPE_JSON], body := "[]" }

/-- A success response that does not conform to the users-endpoint
interface: no headers, empty body. -/
def plainResponse : Response :=
  { status_code := 200, headers := [], body := "" }

/-- A failing response. -/
def notFoundResponse : Response :=
  { status_code := 404, headers := [], body := "" }

/-- A redirect-class response. -/
def redirectResponse : Response :=
  { status_code := 301, headers := [], body := "" }

/-- A placeholder request target for witnesses. -/
def someUrl : String := "http://example.com/users"

/-- The configured base URL of the C7 counterexample: absolute, but its
path does not end in a slash. -/
def apiBase : String := "http://example.com/api"

/-! ## Claims C1–C4, C6–C10 -/

/-- Claim C1, counterexample to the claim as stated: an HTTP exchange
that completes with success status `200` but whose response carries no
`Content-Type` header and no JSON-list body is returned by `get_users`
as-is — the returned value's header mapping does not contain
`Content-Type: application/json; charset=utf-8` and its body does not
decode to a list.  `get_users` validates nothing beyond the status. -/
theorem get_users_ok_response_not_validated :
    (get_users (fun _ => Except.ok plainResponse) someUrl).1
        = Except.ok (some plainResponse)
    ∧ plainResponse.ok = true
    ∧ CONTENT_TYPE_JSON ∉ plainResponse.headers
    ∧ jsonIsList (Response.json plainResponse) = false := by
  refine ⟨rfl, by decide, by decide, by decide⟩

/-- Claim C1, amended: for every HTTP exchange that completes with a
success status and whose response conforms to the users-endpoint
interface (it carries the JSON content-type header and a body decoding
to a list), `get_users` returns a non-absent value with success
indicator true, that header, and a list body. -/
theorem get_users_success_conforming (t : Transport) (u : String)
    (r : Response) (ht : t u = Except.ok r) (hok : r.status_code < 400)
    (hct : CONTENT_TYPE_JSON ∈ r.headers)
    (hbody : jsonIsList (Response.json r) = true) :
    ∃ rr, (get_users t u).1 = Except.ok (some rr) ∧ rr.ok = true
      ∧ CONTENT_TYPE_JSON ∈ rr.headers
      ∧ jsonIsList (Response.json rr) = true := by
  have hokb : r.ok = true := by simp [Response.ok, hok]
  refine ⟨r, ?_, hokb, hct, hbody⟩
  simp [get_users, ht, hokb]

/-- Claim C1 witness: the canned mock-harness exchange (`200`, JSON
content type, body `[]`). -/
theorem get_users_success_conforming_witness :
    ∃ rr, (get_users (fun _ => Except.ok mockResponse) someUrl).1
        = Except.ok (some rr) ∧ rr.ok = true
      ∧ CONTENT_TYPE_JSON ∈ rr.headers
      ∧ jsonIsList (Response.json rr) = true :=
  get_users_success_conforming (fun _ => Except.ok mockResponse) someUrl
    mockResponse rfl (by decide) (by decide) (by decide)

/-- Claim C2: for every HTTP exchange whose response has status at least
400, `get_users` returns the absent value; `none` is a bare constructor,
so no status code, body or header of the failed response is retained. -/
theorem get_users_non_success_absent (t : Transport) (u : String)
    (r : Response) (ht : t u = Except.ok r) (h : 400 ≤ r.status_code) :
    (get_users t u).1 = Except.ok none := by
  have hokb : r.ok = false := by
    simp [Response.ok]
    omega
  simp [get_users, ht, hokb]

/-- Claim C2 witness: a `404` exchange. -/
theorem get_users_non_success_absent_witness :
    (get_users (fun _ => Except.ok notFoundResponse) someUrl).1
      = Except.ok none :=
  get_users_non_success_absent (fun _ => Except.ok notFoundResponse) someUrl
    notFoundResponse rfl (by decide)

/-- Claim C3: when the transport raises (connection refused, timeout,
DNS failure), `get_users` — which contains no try/except — propagates
the same exception and in particular does not return the absent value. -/
theorem get_users_propagates_transport_error (t : Transport) (u : String)
    (e : RequestException) (ht : t u = Except.error e) :
    (get_users t u).1 = Except.error e
    ∧ (get_users t u).1 ≠ Except.ok none := by
  constructor <;> simp [get_users, ht]

/-- Claim C3 witness: a timing-out transport. -/
theorem get_users_propagates_transport_error_witness :
    (get_users (fun _ => Except.error RequestException.timeout) someUrl).1
        = Except.error RequestException.timeout
    ∧ (get_users (fun _ => Except.error RequestException.timeout) someUrl).1
        ≠ Except.ok none :=
  get_users_propagates_transport_error
    (fun _ => Except.error RequestException.timeout) someUrl
    RequestException.timeout rfl

/-- Claim C4: the mock-path step restores the original `USERS_URL` on
every exit path of the `patch.dict` scope — for every transport outcome
of the step's body (second conjunct: for every body whatsoever,
including one that raises), the module state after the step equals the
state before it. -/
theorem send_request_restores_users_url :
    (∀ (t : Transport) (port : Nat) (st : ServicesState) (w : World),
       (send_request t port st w).2.1 = st)
    ∧ ∀ (ε α : Type) (url : String)
        (body : ServicesState → Except ε α × ServicesState)
        (st : ServicesState), (patch_dict url body st).2 = st := by
  constructor
  · intro t port st w
    simp only [send_request, patch_dict]
    split <;> rfl
  · intro ε α url body st
    rfl

/-- Claim C6: URL joining is deterministic — two separate evaluations of
`urljoin` on the same base URL and path segment yield identical
results. -/
theorem urljoin_deterministic (b1 s1 b2 s2 : List Char) (hb : b1 = b2)
    (hs : s1 = s2) : urljoin b1 s1 = urljoin b2 s2 := by
  rw [hb, hs]

/-- Claim C6 witness. -/
theorem urljoin_deterministic_witness :
    urljoin apiBase.data usersSegment.data
      = urljoin apiBase.data usersSegment.data :=
  urljoin_deterministic _ _ _ _ rfl rfl

/-- Claim C7, counterexample to the claim as stated: for the configured
base URL `http://example.com/api` the request target is
`http://example.com/users` — `urljoin` replaces the last path component
`api` — which is neither the base URL followed by `users` nor the base
URL followed by `/users`. -/
theorem users_url_not_plain_concatenation :
    USERS_URL apiBase = ("http://example.com/users")
    ∧ USERS_URL apiBase ≠ apiBase ++ usersSegment
    ∧ USERS_URL apiBase ≠ apiBase ++ ("/users") := by
  refine ⟨by decide, by decide, by decide⟩

/-- Claim C7, amended: for every configured base URL, `get_users` issues
its single outbound request at the target obtained by joining the base
URL with the literal path segment `users` via `urljoin` (which equals
the base followed by `users` only when the base path ends in a slash,
not in general). -/
theorem get_users_requests_joined_url (t : Transport) (base : String) :
    (get_users t (USERS_URL base)).2 = [urljoinS base usersSegment]
    ∧ USERS_URL base = urljoinS base usersSegment := by
  constructor
  · rw [show urljoinS base usersSegment = USERS_URL base from rfl]
    cases h : t (USERS_URL base) <;> simp [get_users, h]
  · rfl

/-- Claim C8: every invocation of `get_users` issues exactly one
outbound request, at the URL it was invoked for — the request trace is
the one-element list `[u]` whatever the transport outcome (so there is
no retry on failure and no cached return without a request). -/
theorem get_users_single_request (t : Transport) (u : String) :
    (get_users t u).2 = [u] := by
  cases h : t u <;> simp [get_users, h]

/-- Claim C9: `USERS_URL` is the value `urljoin(BASE_URL, 'users')`
computed once at configuration-load time (it is a function of the base
URL alone), and no invocation of `get_users` modifies the module state
holding it — the state passes through every invocation unchanged. -/
theorem users_url_fixed_and_read_only :
    (∀ base : String, USERS_URL base = urljoinS base usersSegment)
    ∧ ∀ (t : Transport) (st : ServicesState), (get_users_st t st).2 = st :=
  ⟨fun _ => rfl, fun _ _ => rfl⟩

/-- Claim C10: for every completed exchange, `get_users` returns the
response exactly when its status code is below 400 (the `ok` predicate,
so redirect-class statuses are returned), and the absent value exactly
when the status code is at least 400. -/
theorem get_users_ok_iff_status_lt_400 (t : Transport) (u : String)
    (r : Response) (ht : t u = Except.ok r) :
    ((get_users t u).1 = Except.ok (some r) ↔ r.status_code < 400)
    ∧ ((get_users t u).1 = Except.ok none ↔ 400 ≤ r.status_code) := by
  by_cases h : r.status_code < 400
  · have hokb : r.ok = true := by simp [Response.ok, h]
    constructor
    · simp [get_users, ht, hokb, h]
    · simp [get_users, ht, hokb]
      omega
  · have hokb : r.ok = false := by
      simp [Response.ok]
      omega
    constructor
    · simp [get_users, ht, hokb, h]
    · simp [get_users, ht, hokb]
      omega

/-- Claim C10 witness: a `301` redirect exchange is returned non-absent. -/
theorem get_users_ok_iff_status_lt_400_witness :
    (((get_users (fun _ => Except.ok redirectResponse) someUrl).1
        = Except.ok (some redirectResponse)
      ↔ redirectResponse.status_code < 400)
     ∧ ((get_users (fun _ => Except.ok redirectResponse) someUrl).1
        = Except.ok none ↔ 400 ≤ redirectResponse.status_code)) :=
  get_users_ok_iff_status_lt_400 (fun _ => Except.ok redirectResponse)
    someUrl redirectResponse rfl

/-! ## Claim C5: the URL builder.  First the counterexample, then the
lemma chain characterising `urljoin` on well-formed absolute bases. -/

/-- Claim C5, counterexample to the claim as stated: `ws://host/a/b` is
an absolute base URL and `users` a relative path segment, yet `urljoin`
returns the bare segment `users` — the `ws` scheme is not in
`uses_relative`, so no joining happens at all — instead of the absolute
URL with the last path component replaced.  (`urljoin` also deviates for
dot segments: joining `..` onto `http://h/a/b` gives `http://h/`, not
`http://h/a/..`.) -/
theorem urljoin_not_always_last_segment_replacement :
    urljoin (renderUrl ("ws").data ("host").data ("/a/b").data [] [])
        ("users").data
      = ("users").data
    ∧ ("users").data
      ≠ ("ws").data ++ ':' :: '/' :: '/' :: ("host").data
          ++ replaceLastSegment ("/a/b").data ("users").data := by
  refine ⟨by decide, by decide⟩

/-- The schemes for which `urljoin` resolves relative references all
support a netloc, never contain `:`, pass `urlsplit`'s character test,
and are fixed by lowercasing. -/
theorem uses_relative_scheme_facts :
    ∀ s ∈ uses_relative, (':') ∉ s
      ∧ s.all (fun c => decide (c ∈ scheme_chars)) = true
      ∧ pyLower s = s ∧ s ∈ uses_netloc := by decide

theorem strFind_append_first (c : Char) (a b : List Char) (h : c ∉ a) :
    strFind c (a ++ c :: b) = some a.length := by
  induction a with
  | nil => simp [strFind]
  | cons x xs ih =>
    have hx : ¬(x = c) := by
      rintro rfl
      exact h (List.mem_cons_self _ _)
    have hxs : c ∉ xs := fun hm => h (List.mem_cons_of_mem _ hm)
    simp [strFind, hx, ih hxs]

theorem strFind_eq_none (c : Char) (s : List Char) (h : c ∉ s) :
    strFind c s = none := by
  induction s with
  | nil => rfl
  | cons x xs ih =>
    have hx : ¬(x = c) := by
      rintro rfl
      exact h (List.mem_cons_self _ _)
    have hxs : c ∉ xs := fun hm => h (List.mem_cons_of_mem _ hm)
    simp [strFind, hx, ih hxs]

theorem strRFind_eq_none_iff (c : Char) (s : List Char) :
    strRFind c s = none ↔ c ∉ s := by
  induction s with
  | nil => simp [strRFind]
  | cons x xs ih =>
    simp only [strRFind]
    cases hr : strRFind c xs with
    | some j =>
      have : c ∈ xs := by
        by_contra hc
        rw [ih.mpr hc] at hr
        cases hr
      simp [List.mem_cons, this]
    | none =>
      have hxs : c ∉ xs := ih.mp hr
      by_cases hx : x = c
      · subst hx
        simp
      · have hcx : ¬(c = x) := fun e => hx e.symm
        simp [hx, List.mem_cons, hxs, hcx]

theorem drop_length_succ_append (a : List Char) (c : Char) (b : List Char) :
    (a ++ c :: b).drop (a.length + 1) = b := by
  induction a with
  | nil => simp
  | cons x xs _ => simp

theorem splitFirst_append (c : Char) (a b : List Char) (h : c ∉ a) :
    splitFirst c (a ++ c :: b) = (a, b) := by
  induction a with
  | nil => simp [splitFirst]
  | cons x xs ih =>
    have hx : ¬(x = c) := by
      rintro rfl
      exact h (List.mem_cons_self _ _)
    have hxs : c ∉ xs := fun hm => h (List.mem_cons_of_mem _ hm)
    simp [splitFirst, hx, ih hxs]

theorem splitAll_ne_nil (c : Char) (s : List Char) : splitAll c s ≠ [] := by
  induction s with
  | nil => simp [splitAll]
  | cons x xs ih =>
    simp only [splitAll]
    cases h : splitAll c xs with
    | nil => simp
    | cons y ys =>
      by_cases hx : x = c <;> simp [hx]

theorem splitAll_of_not_mem (c : Char) (s : List Char) (h : c ∉ s) :
    splitAll c s = [s] := by
  induction s with
  | nil => rfl
  | cons x xs ih =>
    have hx : ¬(x = c) := by
      rintro rfl
      exact h (List.mem_cons_self _ _)
    have hxs : c ∉ xs := fun hm => h (List.mem_cons_of_mem _ hm)
    simp [splitAll, ih hxs, hx]

theorem splitAll_length_ge_two (c : Char) (s : List Char) (h : c ∈ s) :
    2 ≤ (splitAll c s).length := by
  induction s with
  | nil => cases h
  | cons x xs ih =>
    by_cases hx : x = c
    · subst hx
      simp only [splitAll]
      cases hh : splitAll x xs with
      | nil => exact absurd hh (splitAll_ne_nil _ _)
      | cons y ys => simp
    · have hmem : c ∈ xs := by
        rcases List.mem_cons.mp h with h1 | h2
        · exact absurd h1.symm hx
        · exact h2
      have h2 := ih hmem
      simp only [splitAll]
      cases hh : splitAll c xs with
      | nil => exact absurd hh (splitAll_ne_nil _ _)
      | cons y ys =>
        rw [hh] at h2
        simp only [List.length_cons] at h2
        simp [hx]
        omega

theorem joinSep_cons (c : Char) (x : List Char) (xs : List (List Char))
    (h : xs ≠ []) : joinSep c (x :: xs) = x ++ c :: joinSep c xs := by
  cases xs with
  | nil => exact absurd rfl h
  | cons y ys => rfl

theorem dropLast_cons_ne {α : Type} (a : α) (l : List α) (h : l ≠ []) :
    (a :: l).dropLast = a :: l.dropLast := by
  cases l with
  | nil => exact absurd rfl h
  | cons b m => rfl

/-- The merged segment list of `urljoin`, rejoined: dropping the last
segment of `p` and appending `seg` is exactly "replace everything after
the last slash of `p` by `seg`" (and `seg` itself when `p` has no
slash). -/
theorem splitAll_cons_eq (c x : Char) (xs : List Char) (h : List Char)
    (t : List (List Char)) (hs : splitAll c xs = h :: t) :
    splitAll c (x :: xs) = if x = c then [] :: h :: t else (x :: h) :: t := by
  simp only [splitAll, hs]

theorem joinSep_dropLast_splitAll (seg : List Char) (p : List Char) :
    joinSep '/' ((splitAll '/' p).dropLast ++ [seg])
      = (match strRFind '/' p with
         | some j => p.take (j + 1) ++ seg
         | none => seg) := by
  induction p with
  | nil => simp [splitAll, joinSep, strRFind]
  | cons x xs ih =>
    cases hs : splitAll '/' xs with
    | nil => exact absurd hs (splitAll_ne_nil _ _)
    | cons h t =>
      rw [splitAll_cons_eq '/' x xs h t hs]
      by_cases hx : x = '/'
      · subst hx
        rw [if_pos rfl]
        rw [dropLast_cons_ne _ _ (by simp), List.cons_append,
          joinSep_cons _ _ _ (by simp)]
        rw [hs] at ih
        simp only [List.nil_append]
        rw [ih]
        simp only [strRFind]
        cases hr : strRFind '/' xs with
        | some j => simp [List.take_succ_cons]
        | none => simp
      · rw [if_neg hx]
        cases hr : strRFind '/' xs with
        | none =>
          have hmem : ('/') ∉ xs := (strRFind_eq_none_iff _ _).mp hr
          have hsx : splitAll '/' xs = [xs] := splitAll_of_not_mem _ _ hmem
          rw [hsx] at hs
          injection hs with h1 h2
          subst h1
          subst h2
          simp [joinSep, strRFind, hr, hx]
        | some j =>
          have hmem : ('/') ∈ xs := by
            by_contra hc
            rw [(strRFind_eq_none_iff _ _).mpr hc] at hr
            cases hr
          have hlen := splitAll_length_ge_two '/' xs hmem
          rw [hs] at hlen
          simp only [List.length_cons] at hlen
          have ht : t ≠ [] := by
            intro hteq
            subst hteq
            simp at hlen
          rw [hs, hr] at ih
          rw [dropLast_cons_ne _ _ ht, List.cons_append,
            joinSep_cons _ _ _ (by simp)] at ih
          rw [dropLast_cons_ne _ _ ht, List.cons_append,
            joinSep_cons _ _ _ (by simp)]
          simp only [strRFind, hr, List.take_succ_cons, List.cons_append]
          have ih2 : h ++ '/' :: joinSep '/' (t.dropLast ++ [seg])
              = List.take (j + 1) xs ++ seg := by
            simpa using ih
          rw [← ih2]

theorem takeWhile_append_all {α : Type} (p : α → Bool) (a b : List α)
    (h : ∀ x ∈ a, p x = true) :
    (a ++ b).takeWhile p = a ++ b.takeWhile p := by
  induction a with
  | nil => simp
  | cons x xs ih =>
    have hx := h x (List.mem_cons_self _ _)
    simp [List.takeWhile_cons, hx,
      ih (fun y hy => h y (List.mem_cons_of_mem _ hy))]

theorem dropWhile_append_all {α : Type} (p : α → Bool) (a b : List α)
    (h : ∀ x ∈ a, p x = true) :
    (a ++ b).dropWhile p = b.dropWhile p := by
  induction a with
  | nil => simp
  | cons x xs ih =>
    have hx := h x (List.mem_cons_self _ _)
    simp [List.dropWhile_cons, hx,
      ih (fun y hy => h y (List.mem_cons_of_mem _ hy))]

/-- `_splitnetloc` on `netloc ++ tail` when the netloc is delimiter-free
and the tail is empty or starts with a delimiter. -/
theorem splitnetloc_append (netloc tail : List Char)
    (hn : ∀ c ∈ netloc, c ≠ '/' ∧ c ≠ '?' ∧ c ≠ '#')
    (htail : tail = []
      ∨ ∃ c r2, tail = c :: r2 ∧ (c = '/' ∨ c = '?' ∨ c = '#')) :
    splitnetloc (netloc ++ tail) = (netloc, tail) := by
  have hall : ∀ c ∈ netloc,
      (!(decide (c = '/') || decide (c = '?') || decide (c = '#'))) = true := by
    intro c hc
    rcases hn c hc with ⟨h1, h2, h3⟩
    simp [h1, h2, h3]
  unfold splitnetloc
  rw [takeWhile_append_all _ _ _ hall, dropWhile_append_all _ _ _ hall]
  rcases htail with rfl | ⟨c, r2, rfl, hc⟩
  · simp
  · rcases hc with rfl | rfl | rfl <;>
      simp [List.takeWhile_cons, List.dropWhile_cons]

/-- The common tail of `urlsplit` on a rendered absolute URL body:
netloc, path, query and fragment are recovered exactly. -/
theorem splitRest_render (scheme netloc path q f : List Char)
    (hn : ∀ c ∈ netloc, c ≠ '/' ∧ c ≠ '?' ∧ c ≠ '#')
    (hp1 : path = [] ∨ path.take 1 = ['/'])
    (hp2 : ∀ c ∈ path, c ≠ '?' ∧ c ≠ '#')
    (hq : ('#') ∉ q) :
    splitRest scheme ('/' :: '/' :: (netloc ++ (path ++ qOpt q ++ fOpt f)))
      = ⟨scheme, netloc, path, q, f⟩ := by
  have hnp : ('#') ∉ path := fun h => (hp2 _ h).2 rfl
  have hqp : ('?') ∉ path := fun h => (hp2 _ h).1 rfl
  have hnq : ('#') ∉ qOpt q := by
    unfold qOpt
    split
    · simp
    · simp only [List.mem_cons]
      rintro (h | h)
      · cases h
      · exact hq h
  have hnpq : ('#') ∉ path ++ qOpt q := by
    rw [List.mem_append]
    rintro (h | h)
    · exact hnp h
    · exact hnq h
  have htail : (path ++ qOpt q ++ fOpt f) = []
      ∨ ∃ c r2, (path ++ qOpt q ++ fOpt f) = c :: r2
          ∧ (c = '/' ∨ c = '?' ∨ c = '#') := by
    rcases hp1 with hpe | hps
    · subst hpe
      simp only [List.nil_append]
      by_cases hqe : q = []
      · subst hqe
        rw [show qOpt ([] : List Char) = [] from rfl, List.nil_append]
        by_cases hfe : f = []
        · subst hfe
          left
          rfl
        · right
          exact ⟨'#', f, by simp [fOpt, hfe], Or.inr (Or.inr rfl)⟩
      · right
        refine ⟨'?', q ++ fOpt f, ?_, Or.inr (Or.inl rfl)⟩
        simp [qOpt, hqe]
    · right
      cases path with
      | nil => simp at hps
      | cons c cs =>
        simp only [List.take, List.take_zero] at hps
        have hc : c = '/' := by
          injection hps
        subst hc
        exact ⟨'/', cs ++ qOpt q ++ fOpt f, by simp, Or.inl rfl⟩
  have hfrag :
      (if ('#') ∈ (path ++ qOpt q ++ fOpt f) then
        splitFirst '#' (path ++ qOpt q ++ fOpt f)
       else (path ++ qOpt q ++ fOpt f, [])) = (path ++ qOpt q, f) := by
    by_cases hfe : f = []
    · subst hfe
      rw [show fOpt ([] : List Char) = [] from rfl, List.append_nil,
        if_neg hnpq]
    · have hfo : fOpt f = '#' :: f := by simp [fOpt, hfe]
      rw [hfo, if_pos (by simp), splitFirst_append '#' _ f hnpq]
  have hquery :
      (if ('?') ∈ (path ++ qOpt q) then splitFirst '?' (path ++ qOpt q)
       else (path ++ qOpt q, [])) = (path, q) := by
    by_cases hqe : q = []
    · subst hqe
      rw [show qOpt ([] : List Char) = [] from rfl, List.append_nil,
        if_neg hqp]
    · have hqo : qOpt q = '?' :: q := by simp [qOpt, hqe]
      rw [hqo, if_pos (by simp), splitFirst_append '?' _ q hqp]
  simp only [splitRest]
  rw [if_pos
    (show ('/' :: '/' :: (netloc ++ (path ++ qOpt q ++ fOpt f))).take 2
      = ['/', '/'] from rfl)]
  rw [show ('/' :: '/' :: (netloc ++ (path ++ qOpt q ++ fOpt f))).drop 2
      = netloc ++ (path ++ qOpt q ++ fOpt f) from rfl]
  rw [splitnetloc_append netloc _ hn htail]
  simp only []
  rw [hfrag]
  simp only []
  rw [hquery]

/-- `urlsplit` recovers the components of a rendered absolute URL whose
scheme is one `urljoin` treats as relative-capable. -/
theorem urlsplit_render (scheme netloc path q f d : List Char)
    (hs : GoodScheme scheme)
    (hn : ∀ c ∈ netloc, c ≠ '/' ∧ c ≠ '?' ∧ c ≠ '#')
    (hp1 : path = [] ∨ path.take 1 = ['/'])
    (hp2 : ∀ c ∈ path, c ≠ '?' ∧ c ≠ '#')
    (hq : ('#') ∉ q) :
    urlsplit (renderUrl scheme netloc path q f) d
      = ⟨scheme, netloc, path, q, f⟩ := by
  obtain ⟨hmem, hne⟩ := hs
  obtain ⟨hcolon, hall, hlower, _⟩ := uses_relative_scheme_facts scheme hmem
  unfold renderUrl
  simp only [urlsplit,
    strFind_append_first ':' scheme _ hcolon]
  rw [if_pos (List.length_pos.mpr hne)]
  rw [List.take_left, drop_length_succ_append]
  by_cases hh : scheme = ("http").data
  · rw [if_pos hh, hlower]
    exact splitRest_render scheme netloc path q f hn hp1 hp2 hq
  · rw [if_neg hh, if_pos hall]
    have hany : ('/' :: '/' :: (netloc ++ (path ++ qOpt q ++ fOpt f))).any
        (fun c => !(decide (c ∈ digitChars))) = true := by
      apply List.any_eq_true.mpr
      exact ⟨'/', List.mem_cons_self _ _, by decide⟩
    rw [if_pos (Or.inr hany), hlower]
    exact splitRest_render scheme netloc path q f hn hp1 hp2 hq

/-- `urlparse` on a rendered absolute URL whose path is free of `;`
leaves the params component empty. -/
theorem urlparse_render (scheme netloc path q f d : List Char)
    (hs : GoodScheme scheme)
    (hn : ∀ c ∈ netloc, c ≠ '/' ∧ c ≠ '?' ∧ c ≠ '#')
    (hp1 : path = [] ∨ path.take 1 = ['/'])
    (hp2 : ∀ c ∈ path, c ≠ '?' ∧ c ≠ '#')
    (hsemi : (';') ∉ path)
    (hq : ('#') ∉ q) :
    urlparse (renderUrl scheme netloc path q f) d
      = ⟨scheme, netloc, path, [], q, f⟩ := by
  unfold urlparse
  rw [urlsplit_render scheme netloc path q f d hs hn hp1 hp2 hq]
  rw [if_neg]
  rintro ⟨_, hsem⟩
  exact hsemi hsem

/-- `urlparse` of an ordinary relative path segment against a default
scheme: the segment is the whole path. -/
theorem urlparse_seg (seg d : List Char) (hseg : GoodSeg seg) :
    urlparse seg d = ⟨d, [], seg, [], [], []⟩ := by
  obtain ⟨hne, hchars, hdot, hddot⟩ := hseg
  have hcolon : (':') ∉ seg := fun h => (hchars _ h).1 rfl
  have hslash : ('/') ∉ seg := fun h => (hchars _ h).2.1 rfl
  have hquest : ('?') ∉ seg := fun h => (hchars _ h).2.2.1 rfl
  have hhash : ('#') ∉ seg := fun h => (hchars _ h).2.2.2.1 rfl
  have hsemi : (';') ∉ seg := fun h => (hchars _ h).2.2.2.2 rfl
  have htake : seg.take 2 ≠ ['/', '/'] := by
    intro h
    have : '/' ∈ seg.take 2 := by
      rw [h]
      exact List.mem_cons_self _ _
    exact hslash (List.mem_of_mem_take this)
  unfold urlparse
  rw [show urlsplit seg d = ⟨d, [], seg, [], []⟩ from ?_]
  · rw [if_neg]
    rintro ⟨_, hsem⟩
    exact hsemi hsem
  · simp only [urlsplit, strFind_eq_none ':' seg hcolon]
    simp only [splitRest]
    rw [if_neg htake]
    simp only []
    rw [if_neg hhash]
    simp only []
    rw [if_neg hquest]

theorem findDotDotFrom_none :
    ∀ (l : List (List Char)), (∀ x ∈ l, x ≠ ("..").data) →
      ∀ i, findDotDotFrom l i = none := by
  intro l
  induction l with
  | nil => intro _ i; rfl
  | cons a rest ih =>
    intro h i
    cases rest with
    | nil => rfl
    | cons b rest2 =>
      cases rest2 with
      | nil => rfl
      | cons c rest3 =>
        have hcond : ¬(b = ("..").data ∧ a ≠ [] ∧ a ≠ ("..").data) := by
          rintro ⟨hb, _⟩
          exact h b (by simp) hb
        rw [findDotDotFrom, if_neg hcond]
        exact ih (fun x hx => h x (List.mem_cons_of_mem _ hx)) (i + 1)

theorem append_singleton_eq_single {α : Type} (l : List α) (a b : α)
    (h : l ++ [a] = [b]) : a = b := by
  cases l with
  | nil =>
    injection h with h1 _
  | cons x xs =>
    simp only [List.cons_append, List.cons.injEq] at h
    exact absurd h.2 (by simp)

/-- The path-merge block of `urljoin` on a dot-free base path and an
ordinary segment: no rewriting fires and the join replaces everything
after the base path's last slash. -/
theorem mergePaths_plain (path seg : List Char)
    (hpd : ∀ s ∈ splitAll '/' path, s ≠ (".").data ∧ s ≠ ("..").data)
    (hsl : ('/') ∉ seg) (hdot : seg ≠ (".").data)
    (hddot : seg ≠ ("..").data) :
    mergePaths path seg
      = (match strRFind '/' path with
         | some j => path.take (j + 1) ++ seg
         | none => seg) := by
  simp only [mergePaths]
  rw [splitAll_of_not_mem '/' seg hsl]
  have hmemL : ∀ x ∈ (splitAll '/' path).dropLast ++ [seg],
      x ≠ (".").data ∧ x ≠ ("..").data := by
    intro x hx
    rcases List.mem_append.mp hx with hx1 | hx2
    · exact hpd x (List.dropLast_subset _ hx1)
    · rw [List.mem_singleton] at hx2
      subst hx2
      exact ⟨hdot, hddot⟩
  have hlast : ((splitAll '/' path).dropLast ++ [seg]).getLast? = some seg :=
    List.getLast?_concat _
  have h1 : fixLastDot ((splitAll '/' path).dropLast ++ [seg])
      = (splitAll '/' path).dropLast ++ [seg] := by
    unfold fixLastDot
    rw [hlast, if_neg]
    intro h
    injection h with h
    exact hdot h
  have h2 : removeDots ((splitAll '/' path).dropLast ++ [seg])
      = (splitAll '/' path).dropLast ++ [seg] := by
    unfold removeDots
    apply List.filter_eq_self.mpr
    intro a ha
    simp [(hmemL a ha).1]
  have h3 : ∀ fuel, removeDotDotsAux fuel ((splitAll '/' path).dropLast ++ [seg])
      = (splitAll '/' path).dropLast ++ [seg] := by
    intro fuel
    cases fuel with
    | zero => rfl
    | succ n =>
      rw [removeDotDotsAux]
      rw [show findDotDot ((splitAll '/' path).dropLast ++ [seg]) = none from
        findDotDotFrom_none _ (fun x hx => (hmemL x hx).2) 1]
  rw [h1, h2, h3]
  have hne1 : (splitAll '/' path).dropLast ++ [seg] ≠ [("..").data] := by
    intro h
    exact hddot (append_singleton_eq_single _ _ _ h)
  rw [if_neg hne1]
  have hne2 : ¬(2 ≤ ((splitAll '/' path).dropLast ++ [seg]).length
      ∧ ((splitAll '/' path).dropLast ++ [seg]).getLast? = some ("..").data) := by
    rintro ⟨_, h⟩
    rw [hlast] at h
    injection h with h
    exact hddot h
  rw [if_neg hne2]
  exact joinSep_dropLast_splitAll seg path

/-- `urlunsplit` on an absolute result with empty params, query and
fragment: scheme, `//`, netloc, then the slash-normalised path. -/
theorem urlunsplit_abs (scheme netloc u : List Char) (hs : scheme ≠ [])
    (hn : netloc ≠ []) :
    urlunsplit scheme netloc u [] [] =
      scheme ++ ':' :: '/' :: '/' ::
        (netloc ++ (if u ≠ [] ∧ u.take 1 ≠ ['/'] then '/' :: u else u)) := by
  simp only [urlunsplit]
  simp [hs, hn]

/-- Claim C5, amended: for every absolute base URL
`scheme://netloc<path>[?query][#fragment]` whose scheme is one for which
`urljoin` resolves relative references (`uses_relative`), whose path
contains no dot segments, and every ordinary relative path segment
(nonempty, delimiter-free, not `.` or `..`), the URL builder replaces
everything after the last slash of the base path by the segment and
drops the base's query and fragment; it is a pure function of its
arguments. -/
theorem urljoin_replaces_last_segment (scheme netloc path q f seg : List Char)
    (hs : GoodScheme scheme) (hn : GoodNetloc netloc) (hp : GoodPath path)
    (hq : ('#') ∉ q) (hseg : GoodSeg seg) :
    urljoin (renderUrl scheme netloc path q f) seg
      = scheme ++ ':' :: '/' :: '/' :: (netloc ++ replaceLastSegment path seg) := by
  obtain ⟨hsmem, hsne⟩ := hs
  obtain ⟨hnne, hnch⟩ := hn
  obtain ⟨hp1, hp2, hp3⟩ := hp
  obtain ⟨hsegne, hsegch, hsegdot, hsegddot⟩ := hseg
  have hn3 : ∀ c ∈ netloc, c ≠ '/' ∧ c ≠ '?' ∧ c ≠ '#' := fun c hc =>
    ⟨(hnch c hc).1, (hnch c hc).2.1, (hnch c hc).2.2.1⟩
  have hp2a : ∀ c ∈ path, c ≠ '?' ∧ c ≠ '#' := fun c hc =>
    ⟨(hp2 c hc).1, (hp2 c hc).2.1⟩
  have hpsemi : (';') ∉ path := fun h => (hp2 _ h).2.2 rfl
  have hsegsl : ('/') ∉ seg := fun h => (hsegch _ h).2.1 rfl
  have husen : scheme ∈ uses_netloc :=
    (uses_relative_scheme_facts scheme hsmem).2.2.2
  have hb : urlparse (renderUrl scheme netloc path q f) []
      = ⟨scheme, netloc, path, [], q, f⟩ :=
    urlparse_render scheme netloc path q f [] ⟨hsmem, hsne⟩ hn3 hp1 hp2a
      hpsemi hq
  have hr : urlparse seg scheme = ⟨scheme, [], seg, [], [], []⟩ :=
    urlparse_seg seg scheme ⟨hsegne, hsegch, hsegdot, hsegddot⟩
  have hbase_ne : renderUrl scheme netloc path q f ≠ [] := by
    simp [renderUrl]
  simp only [urljoin]
  rw [if_neg hbase_ne, if_neg hsegne, hb]
  dsimp only
  rw [hr]
  dsimp only
  rw [if_neg (by simp [hsmem])]
  rw [if_neg (by simp)]
  rw [if_pos husen]
  rw [if_neg (by simp [hsegne])]
  simp only [urlunparse, if_true]
  rw [mergePaths_plain path seg hp3 hsegsl hsegdot hsegddot]
  have htake1 : seg.take 1 ≠ ['/'] := by
    cases seg with
    | nil => exact absurd rfl hsegne
    | cons c cs =>
      intro h
      simp only [List.take, List.take_zero, List.cons.injEq] at h
      exact hsegsl (h.1 ▸ List.mem_cons_self _ _)
  rcases hp1 with hpe | hps
  · subst hpe
    rw [show strRFind '/' ([] : List Char) = none from rfl]
    dsimp only
    rw [urlunsplit_abs _ _ _ hsne hnne]
    rw [show replaceLastSegment [] seg = '/' :: seg from rfl]
    rw [if_pos ⟨hsegne, htake1⟩]
  · cases path with
    | nil => simp at hps
    | cons c cs =>
      have hc : c = '/' := by
        simp only [List.take, List.take_zero, List.cons.injEq] at hps
        exact hps.1
      subst hc
      have hmm : ('/') ∈ ('/' :: cs) := List.mem_cons_self _ _
      cases hj : strRFind '/' ('/' :: cs) with
      | none => exact absurd ((strRFind_eq_none_iff _ _).mp hj) (by simp)
      | some j =>
        dsimp only
        rw [urlunsplit_abs _ _ _ hsne hnne]
        rw [show replaceLastSegment ('/' :: cs) seg
            = ('/' :: cs).take (j + 1) ++ seg by
          simp [replaceLastSegment, hj]]
        have hcond : ¬((('/' :: cs).take (j + 1) ++ seg) ≠ []
            ∧ ((('/' :: cs).take (j + 1) ++ seg)).take 1 ≠ ['/']) := by
          rintro ⟨_, hne1⟩
          rw [List.take_succ_cons, List.cons_append] at hne1
          exact hne1 rfl
        rw [if_neg hcond]

/-- Claim C5 witness: the amended theorem applied to the base
`http://example.com/api/old?x=1#top` and segment `users`, whose result
is `http://example.com/api/users` — last component replaced, query and
fragment dropped. -/
theorem urljoin_replaces_last_segment_witness :
    renderUrl ("http").data ("example.com").data ("/api/old").data
        ("x=1").data ("top").data
      = ("http://example.com/api/old?x=1#top").data
    ∧ urljoin (renderUrl ("http").data ("example.com").data ("/api/old").data
        ("x=1").data ("top").data) ("users").data
      = ("http").data ++ ':' :: '/' :: '/' ::
          (("example.com").data
            ++ replaceLastSegment ("/api/old").data ("users").data) :=
  ⟨by decide,
   urljoin_replaces_last_segment _ _ _ _ _ _ ⟨by decide, by decide⟩
     ⟨by decide, by decide⟩ ⟨by decide, by decide, by decide⟩ (by decide)
     ⟨by decide, by decide, by decide, by decide⟩⟩
